import Mathlib

/-!
Verification development for the progressive sharded data loader of the
token-embeddings-knn repository (src/hooks/useModelData.ts).

The loader is shallowly embedded:
* strings are lists of characters (`Str`),
* the JS `Map` objects (`searchIndex`, `shardCache`) are association lists
  that preserve insertion order, mirroring JS `Map` iteration semantics,
* neighbor similarity scores are floating-point numbers the loader never
  inspects or computes with; they are carried as uninterpreted `Int` values,
* the React hook's state plus its refs form a `Session` record, and the
  asynchronous effect bodies and completion callbacks of the three phases
  become explicit step functions on `Session`.  Each in-flight asynchronous
  task captures a `cancelled` flag set by its effect's cleanup; the cleanup
  of Phase 1 runs on every model/embedding change and the cleanup of
  Phase 2 on every dependency change, so a task is cancelled exactly when
  its run counter differs from the current one.  The embedding therefore
  tags every completion with the run counter captured at launch and
  compiles each `if (cancelled) return` into a counter comparison.
-/

namespace TokenKnn

/-- Strings as lists of characters (JS strings, sequence view). -/
abbrev Str := List Char

/-- `ShardManifest` from src/types.ts. -/
structure Manifest where
  model : Str
  k : Nat
  metric : Str
  vocabSize : Nat
  shardSize : Nat
  numShards : Nat
  deriving DecidableEq

/-- `KnnShard` from src/types.ts: array of neighbor lists; each neighbor is a
`[neighborId, similarity]` pair, the similarity being an uninterpreted score. -/
abbrev KnnShard := List (List (Int × Int))

/-- `TokenEntry` from src/types.ts. -/
structure TokenEntry where
  s : Str
  n : List (Int × Int)
  deriving DecidableEq

/-- `SearchResult` from src/types.ts. -/
structure SearchResult where
  id : Nat
  text : Str
  deriving DecidableEq

/-- The shard cache: a JS `Map<number, KnnShard>` as an insertion-ordered
association list. -/
abbrev Cache := List (Nat × KnnShard)

/-- `Map.get`. -/
def mapGet {α : Type} : List (Nat × α) → Nat → Option α
  | [], _ => none
  | (k, v) :: rest, key => if k = key then some v else mapGet rest key

/-- `Map.has`. -/
def mapHas {α : Type} (m : List (Nat × α)) (key : Nat) : Bool :=
  (mapGet m key).isSome

/-- `Map.set`: replace in place if the key is present, else append. -/
def mapSet {α : Type} : List (Nat × α) → Nat → α → List (Nat × α)
  | [], key, v => [(key, v)]
  | (k, w) :: rest, key, v =>
    if k = key then (key, v) :: rest else (k, w) :: mapSet rest key v

/-- The ASCII instance of `String.prototype.toLowerCase`, which on ASCII
strings lowercases character by character (`Char.toLower` is ASCII-only).
Every concrete table and query in this file is ASCII, where this instance
agrees with the program; the general theorems about case folding quantify
over an arbitrary `fold : Str → Str` standing for the external Unicode
`toLowerCase`, exactly as the JSON parser and the brotli decompressor are
abstracted in `decodePayload`. -/
def foldCase (s : Str) : Str := s.map Char.toLower

/-- Does `hay` start with `needle`? (helper for substring containment). -/
def leadsWith : Str → Str → Bool
  | [], _ => true
  | _ :: _, [] => false
  | c :: cs, d :: ds => c = d && leadsWith cs ds

/-- `String.prototype.includes`: `needle` occurs contiguously in `hay`. -/
def containsSub (needle hay : Str) : Bool :=
  match hay with
  | [] => needle.isEmpty
  | _ :: rest => leadsWith needle hay || containsSub needle rest

/-- Shard index of a token id — useModelData.ts line 147 and line 279:
`Math.floor(id / manifest.shardSize)` (the id is a nonnegative integer at
both use sites, so floor division is natural-number division). -/
def shardIndexOf (m : Manifest) (i : Nat) : Nat := i / m.shardSize

/-- Offset of a token id inside its shard — useModelData.ts line 282:
`id - shardIndex * manifest.shardSize`. -/
def localOffset (m : Manifest) (i : Nat) : Nat := i - shardIndexOf m i * m.shardSize

/-- `getToken` from useModelData.ts lines 275-287.  The hook state
`tokenStrings`/`manifest` may still be null, hence the `Option` arguments;
the id argument is a JS number, modelled as `Int` so the `id < 0` branch is
meaningful.  When the shard is absent the code supplies the empty array
(`shard ? shard[...] : []`). -/
def getToken (tokenStrings : Option (List Str)) (manifest : Option Manifest)
    (cache : Cache) (id : Int) : Option TokenEntry :=
  match tokenStrings with
  | none => none
  | some toks =>
    if id < 0 ∨ (toks.length : Int) ≤ id then none
    else
      match manifest with
      | none => none
      | some m =>
        let i := id.toNat
        let sIdx := shardIndexOf m i
        let neighbors :=
          match mapGet cache sIdx with
          | some shard => shard.getD (i - sIdx * m.shardSize) []
          | none => []
        some { s := toks.getD i [], n := neighbors }

/-- `fetchAndDecompress` payload dispatch, useModelData.ts lines 43-52:
sniff the first byte; `{` (0x7b) or `[` (0x5b) means the transport already
decompressed and the bytes are parsed directly, anything else goes through
brotli decompression first.  The JSON parser and the brotli decompressor are
external libraries, taken as parameters. -/
def decodePayload {J : Type} (parse : List Nat → Option J)
    (brotliDecompress : List Nat → List Nat) (bytes : List Nat) : Option J :=
  let firstByte := bytes.head?
  if firstByte = some 0x7b ∨ firstByte = some 0x5b then parse bytes
  else parse (brotliDecompress bytes)

/-- One insertion into the search index — useModelData.ts lines 116-121:
if the folded key is present, push the id onto its bucket, else add a new
key at the end (JS `Map` keeps insertion order). -/
def addEntry (idx : List (Str × List Nat)) (key : Str) (id : Nat) :
    List (Str × List Nat) :=
  match idx with
  | [] => [(key, [id])]
  | (k, ids) :: rest =>
    if k = key then (k, ids ++ [id]) :: rest else (k, ids) :: addEntry rest key id

/-- The index-building loop of useModelData.ts lines 113-122, with `n` the
id of the first remaining token and `fold` the external case folding
(`String.prototype.toLowerCase`). -/
def buildIndexAux (fold : Str → Str) :
    Nat → List Str → List (Str × List Nat) → List (Str × List Nat)
  | _, [], idx => idx
  | n, t :: ts, idx => buildIndexAux fold (n + 1) ts (addEntry idx (fold t) n)

/-- Search-index construction from the token table (useModelData.ts lines
113-122), parameterized by the external case-folding function. -/
def buildIndexWith (fold : Str → Str) (tokens : List Str) :
    List (Str × List Nat) :=
  buildIndexAux fold 0 tokens []

/-- The search index at the ASCII folding instance (exact for the ASCII
fixtures evaluated concretely in this file). -/
def buildIndex (tokens : List Str) : List (Str × List Nat) :=
  buildIndexWith foldCase tokens

/-- `Number(query)` for a digits-only query string. -/
def natOfDigits (s : Str) : Nat :=
  s.foldl (fun n c => n * 10 + (c.toNat - 48)) 0

/-- The regular expression test of useModelData.ts line 251 — one or more
digits and nothing else. -/
def isDigitQuery (s : Str) : Bool :=
  !s.isEmpty && s.all Char.isDigit

/-- Inner loop of `search` (useModelData.ts lines 262-267): append the ids
of one matching index bucket, skipping ids already present, stopping at the
limit. -/
def pushIds (lim : Nat) (toks : List Str) :
    List Nat → List SearchResult → List SearchResult
  | [], res => res
  | i :: is, res =>
    if lim ≤ res.length then res
    else
      pushIds lim toks is
        (if res.any (fun r => r.id = i) then res
         else res ++ [{ id := i, text := toks.getD i [] }])

/-- Outer loop of `search` (useModelData.ts lines 259-269): scan the index
buckets in insertion order, filtering by substring containment of the folded
query, stopping at the limit. -/
def scanIndex (lim : Nat) (toks : List Str) (lower : Str) :
    List (Str × List Nat) → List SearchResult → List SearchResult
  | [], res => res
  | (key, ids) :: rest, res =>
    if lim ≤ res.length then res
    else
      scanIndex lim toks lower rest
        (if containsSub lower key then pushIds lim toks ids res else res)

/-- `search` from useModelData.ts lines 244-271, for a loaded table `toks`
whose published index is built with the same folding `fold` that lowercases
the query (line 247).  The numeric-id fast path (lines 251-256) pushes its
result before the limit is ever consulted. -/
def searchWith (fold : Str → Str) (toks : List Str) (query : Str)
    (lim : Nat) : List SearchResult :=
  if query.isEmpty then []
  else
    let lower := fold query
    let base : List SearchResult :=
      if isDigitQuery query = true ∧ natOfDigits query < toks.length then
        [{ id := natOfDigits query, text := toks.getD (natOfDigits query) [] }]
      else []
    scanIndex lim toks lower (buildIndexWith fold toks) base

/-- `search` at the ASCII folding instance (exact for the ASCII fixtures
evaluated concretely in this file). -/
def searchModel (toks : List Str) (query : Str) (lim : Nat) :
    List SearchResult :=
  searchWith foldCase toks query lim

/-- Concrete manifest of the scenario in the specification:
`{vocabSize: 40000, shardSize: 16384, numShards: 3, k: 20}`. -/
def scenarioManifest : Manifest :=
  { model := [], k := 20, metric := [], vocabSize := 40000,
    shardSize := 16384, numShards := 3 }

/-- Tiny concrete fixtures used to instantiate the hypotheses of the
general theorems. -/
def demoManifest : Manifest :=
  { model := [], k := 2, metric := [], vocabSize := 4,
    shardSize := 2, numShards := 2 }

def demoTokens : List Str := [['a'], ['b'], ['c'], ['d']]

def demoShard : KnnShard := [[(1, 90)], [(0, 80)]]

/-- Tokens of the spec's search scenario. -/
def scenarioTokens : List Str :=
  [("cat".toList), ("Cats".toList), ("concatenate".toList)]

/-- Tokens exhibiting two distinct folded keys matching one query while one
folded key holds two identifiers. -/
def catsDupTokens : List Str :=
  [("cat".toList), ("Cats".toList), ("cat".toList)]

/-- Toy codec instantiating the external parser/compressor parameters of
C9's theorem: a value `n` serializes to `[0x7b, n]`, compression prepends a
sentinel byte. -/
def toyJsonText (n : Nat) : List Nat := [0x7b, n]

def toyParse (b : List Nat) : Option Nat :=
  match b with
  | [0x7b, n] => some n
  | _ => none

def toyCompress (b : List Nat) : List Nat := 0 :: b

def toyDecompress (b : List Nat) : List Nat := b.tail

/-- The per-key singleton index that index construction produces when no
two tokens share a folded form; `n` is the id of the first listed token. -/
def singIdx (fold : Str → Str) : Nat → List Str → List (Str × List Nat)
  | _, [] => []
  | n, t :: ts => (fold t, [n]) :: singIdx fold (n + 1) ts

/-- Errors produced by `fetchAndDecompress` (non-2xx response or bad
payload). -/
inductive Err where
  | http (status : Nat)
  | decodeFailure
  deriving DecidableEq

/-- The state of one `useModelData` hook instance: its React state
(`loading`, `errorMsg`, `tokenStrings`, `manifest`, `neighborsLoading`,
`shardVersion`) together with the refs (`searchIndex`, `shardCache`) and the
`selectedToken` prop.  The two counters model the effect-run cancellation
flags: `generation` counts Phase-1 effect runs and `phase2Run` Phase-2
effect runs; an asynchronous completion captured its run's counter value,
and its `cancelled` flag is set exactly when that value differs from the
current counter (the cleanup of a superseded run has executed). -/
structure Session where
  generation : Nat
  phase2Run : Nat
  loading : Bool
  errorMsg : Option Err
  tokenStrings : Option (List Str)
  manifest : Option Manifest
  neighborsLoading : Bool
  shardVersion : Nat
  searchIndex : List (Str × List Nat)
  shardCache : Cache
  selectedToken : Option Int
  deriving DecidableEq

/-- Initial hook state (useModelData.ts lines 60-70). -/
def initSession : Session :=
  { generation := 0, phase2Run := 0, loading := true, errorMsg := none,
    tokenStrings := none, manifest := none, neighborsLoading := false,
    shardVersion := 0, searchIndex := [], shardCache := [],
    selectedToken := none }

/-- Phase-1 effect body for a valid (model, embedding) pair
(useModelData.ts lines 73-96): reset every piece of state and both refs.
The previous Phase-1 run's cleanup has executed (`generation` advances) and
the reset of `manifest`/`tokenStrings` triggers the Phase-2 cleanup
(`phase2Run` advances), cancelling any outstanding shard fetch. -/
def startSelector (s : Session) : Session :=
  { generation := s.generation + 1
    phase2Run := s.phase2Run + 1
    loading := true
    errorMsg := none
    tokenStrings := none
    manifest := none
    neighborsLoading := false
    shardVersion := 0
    searchIndex := []
    shardCache := []
    selectedToken := s.selectedToken }

/-- Completion of the Phase-1 manifest+tokens load (useModelData.ts lines
98-135).  `tag` is the `generation` captured when the load started; every
side effect in the async body is guarded by `if (cancelled)`, so a stale
completion changes nothing.  On success the search index is built and
assigned to its ref before `setManifest`/`setTokenStrings` publish the
result; on failure only the error and loading flags change. -/
def applyTableCompletion (s : Session) (tag : Nat)
    (res : Except Err (Manifest × List Str)) : Session :=
  if tag ≠ s.generation then s
  else
    match res with
    | .ok (m, toks) =>
      { s with searchIndex := buildIndex toks, manifest := some m,
               tokenStrings := some toks, loading := false }
    | .error e => { s with errorMsg := some e, loading := false }

/-- Phase-2 effect body (useModelData.ts lines 143-155): runs whenever its
dependencies change (which first cancels the previous run, hence the
`phase2Run` bump), returns silently unless manifest and tokens are loaded
and a token is selected and in range, skips cached shards, and otherwise
starts exactly one shard fetch, returned as the singleton list of fetched
shard indices. -/
def phase2Effect (s : Session) : Session × List Nat :=
  let s1 := { s with phase2Run := s.phase2Run + 1 }
  match s1.manifest, s1.tokenStrings, s1.selectedToken with
  | some m, some _, some tok =>
    if tok < 0 ∨ (m.vocabSize : Int) ≤ tok then (s1, [])
    else
      let shardIndex := tok.toNat / m.shardSize
      if mapHas s1.shardCache shardIndex then (s1, [])
      else ({ s1 with neighborsLoading := true }, [shardIndex])
  | _, _, _ => (s1, [])

/-- Completion of a Phase-2 shard fetch (useModelData.ts lines 156-171).
`runId` is the `phase2Run` captured at fetch start; every branch, including
the `finally`, is guarded by the `cancelled` flag. -/
def applyShardCompletion (s : Session) (runId idx : Nat)
    (res : Except Err KnnShard) : Session :=
  if runId ≠ s.phase2Run then s
  else
    match res with
    | .ok shard =>
      { s with shardCache := mapSet s.shardCache idx shard,
               shardVersion := s.shardVersion + 1,
               neighborsLoading := false }
    | .error e => { s with errorMsg := some e, neighborsLoading := false }

/-- The externally visible events of one hook instance: a model/embedding
switch, a token selection, and the two asynchronous completions (each
carrying the counter value captured at launch). -/
inductive Ev where
  | selector
  | select (tok : Int)
  | tableDone (tag : Nat) (res : Except Err (Manifest × List Str))
  | shardDone (runId idx : Nat) (res : Except Err KnnShard)

/-- One event step.  The second component lists the shard indices whose
fetch this step starts.  A `select` re-runs the Phase-2 effect only when the
token actually changed; a successful fresh `tableDone` sets new Phase-2
dependencies, so the Phase-2 effect re-runs immediately after it. -/
def step (s : Session) (e : Ev) : Session × List Nat :=
  match e with
  | .selector => (startSelector s, [])
  | .select tok =>
    if s.selectedToken = some tok then (s, [])
    else phase2Effect { s with selectedToken := some tok }
  | .tableDone tag res =>
    let s' := applyTableCompletion s tag res
    if tag = s.generation then
      match res with
      | .ok _ => phase2Effect s'
      | .error _ => (s', [])
    else (s', [])
  | .shardDone runId idx res => (applyShardCompletion s runId idx res, [])

/-- Run a list of events, accumulating the fetched shard indices. -/
def runTrace (s : Session) (evs : List Ev) : Session × List Nat :=
  match evs with
  | [] => (s, [])
  | e :: rest =>
    let p := step s e
    let r := runTrace p.1 rest
    (r.1, p.2 ++ r.2)

/-- On-demand cache writes performed by the Phase-2 path while the
prefetcher is waiting for its idle callback. -/
def applyFills (c : Cache) (fills : List (Nat × KnnShard)) : Cache :=
  fills.foldl (fun acc kv => mapSet acc kv.1 kv.2) c

/-- The Phase-3 prefetch loop `prefetchNext` (useModelData.ts lines
197-235), run to completion with no selector change.  The queue is popped
front first; a shard already cached at dequeue time is skipped without a
fetch; otherwise the loop waits for an idle callback — during which the
environment may write `fills n` into the cache — then fetches.  A failed
fetch (`outcome n = none`) is swallowed and the loop continues; a success
is written to the cache.  `n` counts fetch attempts; the second component
is the list of shard indices actually fetched, in order. -/
def prefetchRun : List Nat → (Nat → List (Nat × KnnShard)) →
    (Nat → Option KnnShard) → Nat → Cache → Cache × List Nat
  | [], _, _, _, c => (c, [])
  | idx :: q, fills, outcome, n, c =>
    if mapHas c idx then prefetchRun q fills outcome n c
    else
      let c1 := applyFills c (fills n)
      match outcome n with
      | some shard =>
        let r := prefetchRun q fills outcome (n + 1) (mapSet c1 idx shard)
        (r.1, idx :: r.2)
      | none =>
        let r := prefetchRun q fills outcome (n + 1) c1
        (r.1, idx :: r.2)

/-- The ascending list of shard indices missing from the cache when the
prefetch timer fires (useModelData.ts lines 192-195). -/
def missingShards (m : Manifest) (c : Cache) : List Nat :=
  (List.range m.numShards).filter (fun i => !(mapHas c i))

/-- Phase-3 background prefetch from initial cache `c`. -/
def backgroundPrefetch (m : Manifest) (fills : Nat → List (Nat × KnnShard))
    (outcome : Nat → Option KnnShard) (c : Cache) : Cache × List Nat :=
  prefetchRun (missingShards m c) fills outcome 0 c

/-- A one-shard manifest for concrete prefetch runs. -/
def oneShardManifest : Manifest :=
  { model := [], k := 2, metric := [], vocabSize := 2,
    shardSize := 2, numShards := 1 }

/-- Trace exhibiting two same-generation demands for shard 0: load a table,
then select token 0 and then token 1, both living in shard 0 of
`demoManifest`. -/
def c2Trace : List Ev :=
  [Ev.selector, Ev.tableDone 1 (Except.ok (demoManifest, demoTokens)),
   Ev.select 0, Ev.select 1]

/-- Trace selecting the out-of-range token 10 on a 4-token table. -/
def c4Trace : List Ev :=
  [Ev.selector, Ev.tableDone 1 (Except.ok (demoManifest, demoTokens)),
   Ev.select 10]

/-- A loaded session with an outstanding shard fetch (the `select 0` at the
end started a fetch for shard 0 whose completion carries run id 3). -/
def loadedSession : Session :=
  (runTrace initSession
    [Ev.selector, Ev.tableDone 1 (Except.ok (demoManifest, demoTokens)),
     Ev.select 0]).1

/-- A loaded session whose shard 0 has been fetched and cached. -/
def cachedSession : Session :=
  (runTrace initSession
    [Ev.selector, Ev.tableDone 1 (Except.ok (demoManifest, demoTokens)),
     Ev.select 0, Ev.shardDone 3 0 (Except.ok demoShard)]).1

/-- Claim C5: for every in-range identifier `i` the shard containing `i` is
shard `⌊i / shardSize⌋`, the neighbor list for `i` is read at offset
`i - shardIndex * shardSize` (which equals `i % shardSize`) within that
shard, and in the scenario manifest identifier 16384 maps to shard 1 while
identifier 16383 maps to shard 0. -/
theorem c5_shard_location (m : Manifest) (toks : List Str) (cache : Cache)
    (i : Nat) (sh : KnnShard)
    (hv : i < m.vocabSize) (hl : i < toks.length)
    (hc : mapGet cache (shardIndexOf m i) = some sh) :
    shardIndexOf m i = i / m.shardSize
    ∧ localOffset m i = i % m.shardSize
    ∧ (getToken (some toks) (some m) cache (i : Int)).map TokenEntry.n
        = some (sh.getD (i % m.shardSize) [])
    ∧ shardIndexOf scenarioManifest 16384 = 1
    ∧ shardIndexOf scenarioManifest 16383 = 0 := by
  have hmod : i - shardIndexOf m i * m.shardSize = i % m.shardSize := by
    have h := Nat.div_add_mod' i m.shardSize
    show i - i / m.shardSize * m.shardSize = i % m.shardSize
    omega
  refine ⟨rfl, hmod, ?_, by decide, by decide⟩
  have hneg : ¬ ((i : Int) < 0 ∨ (toks.length : Int) ≤ (i : Int)) := by
    omega
  simp only [getToken, Int.toNat_natCast, hneg, if_false]
  simp [hc, hmod]

/-- Witness for C5 at a concrete input. -/
theorem c5_shard_location_witness :
    (getToken (some demoTokens) (some demoManifest) [(1, demoShard)]
        ((3 : Nat) : Int)).map TokenEntry.n
      = some (demoShard.getD (3 % 2) []) :=
  (c5_shard_location demoManifest demoTokens [(1, demoShard)] 3 demoShard
    (by decide) (by decide) (by decide)).2.2.1

/-- Claim C3 counterexample: with the table loaded and the containing shard
not cached, `getToken` does not leave the neighbors field absent — it
returns an entry whose neighbors field is the empty-list placeholder. -/
theorem c3_absent_neighbors_counterexample :
    mapGet ([] : Cache) 0 = none
    ∧ (getToken (some [['a']])
        (some { model := [], k := 1, metric := [], vocabSize := 1,
                shardSize := 1, numShards := 1 })
        ([] : Cache) 0).map TokenEntry.n = some []
    ∧ (getToken (some [['a']])
        (some { model := [], k := 1, metric := [], vocabSize := 1,
                shardSize := 1, numShards := 1 })
        ([] : Cache) 0).map TokenEntry.n ≠ none := by
  refine ⟨rfl, by decide, by decide⟩

/-- Claim C3 (amended): for every identifier `i` whose table entry is loaded
but whose containing shard is not yet cached, `getToken` returns an entry
whose neighbors field is the empty list (a placeholder), and the stored
neighbor list appears only once the shard `⌊i / shardSize⌋` is cached. -/
theorem c3_empty_neighbors_until_cached (toks : List Str) (m : Manifest)
    (cache : Cache) (i : Nat) (hl : i < toks.length) :
    (mapGet cache (shardIndexOf m i) = none →
      getToken (some toks) (some m) cache (i : Int)
        = some { s := toks.getD i [], n := [] })
    ∧ (∀ sh : KnnShard, mapGet cache (shardIndexOf m i) = some sh →
      getToken (some toks) (some m) cache (i : Int)
        = some { s := toks.getD i [], n := sh.getD (localOffset m i) [] }) := by
  have hneg : ¬ ((i : Int) < 0 ∨ (toks.length : Int) ≤ (i : Int)) := by
    omega
  constructor
  · intro hnone
    simp only [getToken, Int.toNat_natCast, hneg, if_false]
    simp [hnone]
  · intro sh hsome
    simp only [getToken, Int.toNat_natCast, hneg, if_false]
    have hoff : localOffset m i = i - shardIndexOf m i * m.shardSize := rfl
    simp [hsome, hoff]

/-- Witness for C3's amended theorem at a concrete input. -/
theorem c3_empty_neighbors_until_cached_witness :
    getToken (some demoTokens) (some demoManifest) ([] : Cache) ((1 : Nat) : Int)
      = some { s := ['b'], n := [] } :=
  (c3_empty_neighbors_until_cached demoTokens demoManifest [] 1
    (by decide)).1 (by decide)

/-- Claim C9: the payload decoder parses directly when the first byte is
`{` (0x7b) or `[` (0x5b) and brotli-decompresses first otherwise, so it
round-trips raw JSON payloads and compressed payloads alike whenever the
parser inverts the serializer and the decompressor inverts the compressor
(and compressed containers do not begin with a JSON leading byte). -/
theorem c9_decode_roundtrip {J : Type} (parse : List Nat → Option J)
    (brotliDecompress : List Nat → List Nat)
    (jsonText : J → List Nat) (compress : List Nat → List Nat) (x : J)
    (hdec : ∀ b, brotliDecompress (compress b) = b)
    (hparse : parse (jsonText x) = some x)
    (hjson : (jsonText x).head? = some 0x7b ∨ (jsonText x).head? = some 0x5b)
    (hcomp : (compress (jsonText x)).head? ≠ some 0x7b
      ∧ (compress (jsonText x)).head? ≠ some 0x5b) :
    decodePayload parse brotliDecompress (jsonText x) = some x
    ∧ decodePayload parse brotliDecompress (compress (jsonText x)) = some x := by
  constructor
  · simp [decodePayload, hjson, hparse]
  · have hnot : ¬ ((compress (jsonText x)).head? = some 0x7b
        ∨ (compress (jsonText x)).head? = some 0x5b) := by
      rcases hcomp with ⟨h1, h2⟩
      intro h
      rcases h with h | h
      · exact h1 h
      · exact h2 h
    simp [decodePayload, hnot, hdec, hparse]

/-- Witness for C9 at a concrete input. -/
theorem c9_decode_roundtrip_witness :
    decodePayload toyParse toyDecompress (toyJsonText 5) = some 5
    ∧ decodePayload toyParse toyDecompress (toyCompress (toyJsonText 5)) = some 5 :=
  c9_decode_roundtrip toyParse toyDecompress toyJsonText toyCompress 5
    (fun b => rfl) (by decide) (by decide) (by decide)

theorem scanIndex_lim_zero (toks : List Str) (lower : Str)
    (idx : List (Str × List Nat)) (res : List SearchResult) :
    scanIndex 0 toks lower idx res = res := by
  cases idx with
  | nil => rfl
  | cons e rest =>
    obtain ⟨key, ids⟩ := e
    simp [scanIndex]

theorem pushIds_length_le (lim : Nat) (toks : List Str) (ids : List Nat)
    (res : List SearchResult) (h : res.length ≤ lim) :
    (pushIds lim toks ids res).length ≤ lim := by
  induction ids generalizing res with
  | nil => simpa [pushIds] using h
  | cons i is ih =>
    rw [pushIds]
    split
    · exact h
    · rename_i hfull
      apply ih
      split
      · exact h
      · simp only [List.length_append, List.length_cons, List.length_nil]
        omega

theorem scanIndex_length_le (lim : Nat) (toks : List Str) (lower : Str)
    (idx : List (Str × List Nat)) (res : List SearchResult)
    (h : res.length ≤ lim) :
    (scanIndex lim toks lower idx res).length ≤ lim := by
  induction idx generalizing res with
  | nil => simpa [scanIndex] using h
  | cons e rest ih =>
    obtain ⟨key, ids⟩ := e
    rw [scanIndex]
    split
    · exact h
    · apply ih
      split
      · exact pushIds_length_le _ _ _ _ h
      · exact h

theorem pushIds_head (lim : Nat) (toks : List Str) (ids : List Nat)
    (res : List SearchResult) (h : res ≠ []) :
    (pushIds lim toks ids res).head? = res.head? := by
  induction ids generalizing res with
  | nil => rfl
  | cons i is ih =>
    rw [pushIds]
    split
    · rfl
    · cases res with
      | nil => exact absurd rfl h
      | cons r rs =>
        split
        · exact ih _ (by simp)
        · rw [ih _ (by simp)]
          simp

theorem pushIds_ne_nil (lim : Nat) (toks : List Str) (ids : List Nat)
    (res : List SearchResult) (h : res ≠ []) :
    pushIds lim toks ids res ≠ [] := by
  have heq := pushIds_head lim toks ids res h
  cases res with
  | nil => exact absurd rfl h
  | cons r rs =>
    intro hnil
    rw [hnil] at heq
    simp at heq

theorem scanIndex_head (lim : Nat) (toks : List Str) (lower : Str)
    (idx : List (Str × List Nat)) (res : List SearchResult) (h : res ≠ []) :
    (scanIndex lim toks lower idx res).head? = res.head? := by
  induction idx generalizing res with
  | nil => rfl
  | cons e rest ih =>
    obtain ⟨key, ids⟩ := e
    rw [scanIndex]
    split
    · rfl
    · split
      · rw [ih _ (pushIds_ne_nil _ _ _ _ h), pushIds_head _ _ _ _ h]
      · exact ih _ h

theorem addEntry_fresh (idx : List (Str × List Nat)) (key : Str) (id : Nat)
    (h : key ∉ idx.map Prod.fst) :
    addEntry idx key id = idx ++ [(key, [id])] := by
  induction idx with
  | nil => rfl
  | cons e rest ih =>
    obtain ⟨k, ids⟩ := e
    have hk : ¬ k = key := by
      intro he
      exact h (by simp [he])
    have h' : key ∉ rest.map Prod.fst := by
      intro hm
      exact h (by simp [hm])
    simp [addEntry, hk, ih h']

theorem buildIndexAux_fresh (fold : Str → Str) (ts : List Str) :
    ∀ (n : Nat) (idx : List (Str × List Nat)),
    (ts.map fold).Nodup →
    (∀ k ∈ idx.map Prod.fst, k ∉ ts.map fold) →
    buildIndexAux fold n ts idx = idx ++ singIdx fold n ts := by
  induction ts with
  | nil =>
    intro n idx _ _
    simp [buildIndexAux, singIdx]
  | cons t ts ih =>
    intro n idx hnd hdis
    have hnd2 : (fold t :: ts.map fold).Nodup := by simpa using hnd
    obtain ⟨hmem, hnd'⟩ := List.nodup_cons.mp hnd2
    have hkey : fold t ∉ idx.map Prod.fst := by
      intro hk
      exact hdis _ hk (by simp)
    rw [buildIndexAux, addEntry_fresh _ _ _ hkey,
      ih (n + 1) (idx ++ [(fold t, [n])]) hnd' ?_]
    · simp [singIdx]
    · intro k hk
      simp only [List.map_append, List.mem_append, List.map_cons, List.map_nil,
        List.mem_cons, List.not_mem_nil, or_false] at hk
      rcases hk with hk | hk
      · intro hmem2
        exact hdis _ hk (by simp [hmem2])
      · subst hk
        exact hmem

theorem buildIndexWith_of_nodup (fold : Str → Str) (ts : List Str)
    (h : (ts.map fold).Nodup) :
    buildIndexWith fold ts = singIdx fold 0 ts := by
  simpa [buildIndexWith] using buildIndexAux_fresh fold ts 0 [] h (by simp)

theorem pushIds_nodup (lim : Nat) (toks : List Str) (ids : List Nat)
    (res : List SearchResult) (h : (res.map SearchResult.id).Nodup) :
    ((pushIds lim toks ids res).map SearchResult.id).Nodup := by
  induction ids generalizing res with
  | nil => simpa [pushIds] using h
  | cons i is ih =>
    rw [pushIds]
    split
    · exact h
    · apply ih
      split
      · exact h
      · rename_i hany
        simp only [List.any_eq_true, decide_eq_true_eq, not_exists, not_and] at hany
        simp only [List.map_append, List.map_cons, List.map_nil]
        refine List.Nodup.append h (List.nodup_singleton _) ?_
        intro a ha hb
        simp only [List.mem_singleton] at hb
        subst hb
        obtain ⟨r, hr, hid⟩ := List.mem_map.mp ha
        exact hany r hr hid

theorem scanIndex_nodup (lim : Nat) (toks : List Str) (lower : Str)
    (idx : List (Str × List Nat)) (res : List SearchResult)
    (h : (res.map SearchResult.id).Nodup) :
    ((scanIndex lim toks lower idx res).map SearchResult.id).Nodup := by
  induction idx generalizing res with
  | nil => simpa [scanIndex] using h
  | cons e rest ih =>
    obtain ⟨key, ids⟩ := e
    rw [scanIndex]
    split
    · exact h
    · apply ih
      split
      · exact pushIds_nodup _ _ _ _ h
      · exact h

theorem pushIds_single (lim : Nat) (toks : List Str) (n : Nat)
    (res : List SearchResult) (hfull : ¬ lim ≤ res.length)
    (hany : res.any (fun r => r.id = n) = false) :
    pushIds lim toks [n] res
      = res ++ [{ id := n, text := toks.getD n [] }] := by
  rw [pushIds]
  simp [hfull, hany, pushIds]

theorem scan_singIdx_chain (fold : Str → Str) (lim : Nat) (toks : List Str)
    (lower : Str) (ts : List Str) :
    ∀ (n : Nat) (res : List SearchResult),
    List.Chain' (· < ·) (res.map SearchResult.id) →
    (∀ r ∈ res, r.id < n) →
    List.Chain' (· < ·)
      ((scanIndex lim toks lower (singIdx fold n ts) res).map
        SearchResult.id) := by
  induction ts with
  | nil =>
    intro n res hch _
    simpa [singIdx, scanIndex] using hch
  | cons t ts ih =>
    intro n res hch hub
    rw [singIdx, scanIndex]
    split
    · exact hch
    · rename_i hfull
      split
      · rename_i hcon
        have hany : res.any (fun r => r.id = n) = false := by
          rw [List.any_eq_false]
          intro r hr
          simp only [decide_eq_true_eq]
          exact Nat.ne_of_lt (hub r hr)
        rw [pushIds_single lim toks n res hfull hany]
        apply ih (n + 1)
        · simp only [List.map_append, List.map_cons, List.map_nil]
          refine List.chain'_append.mpr ⟨hch, by simp, ?_⟩
          intro a ha b hb
          simp only [List.head?_cons, Option.mem_def, Option.some_inj] at hb
          subst hb
          obtain ⟨hne, rfl⟩ := List.mem_getLast?_eq_getLast ha
          obtain ⟨r, hr, hid⟩ := List.mem_map.mp (List.getLast_mem hne)
          rw [← hid]
          exact hub r hr
        · intro r hr
          simp only [List.mem_append, List.mem_singleton] at hr
          rcases hr with hr | hr
          · exact Nat.lt_succ_of_lt (hub r hr)
          · subst hr
            exact Nat.lt_succ_self n
      · apply ih (n + 1) res hch
        intro r hr
        exact Nat.lt_succ_of_lt (hub r hr)

/-- Claim C10: the numeric-id fast path pushes its result before the limit
is consulted, so a digits-only in-range query returns one result even with
limit 0; non-numeric queries never exceed the limit; the empty query always
yields the empty list.  (Limits are modelled as natural numbers; the only
call site in the repository uses the default 50.) -/
theorem c10_numeric_limit_bypass (toks : List Str) (q : Str) (lim : Nat) :
    searchModel toks [] lim = []
    ∧ (isDigitQuery q = true → natOfDigits q < toks.length →
        searchModel toks q 0
          = [{ id := natOfDigits q, text := toks.getD (natOfDigits q) [] }])
    ∧ (isDigitQuery q = false → (searchModel toks q lim).length ≤ lim) := by
  refine ⟨rfl, ?_, ?_⟩
  · intro hd hr
    have hne : q.isEmpty = false := by
      cases q with
      | nil => simp [isDigitQuery] at hd
      | cons c cs => rfl
    rw [searchModel, searchWith]
    rw [if_neg (by simp [hne])]
    rw [if_pos ⟨hd, hr⟩, scanIndex_lim_zero]
  · intro hd
    by_cases hne : q.isEmpty = true
    · simp [searchModel, searchWith, hne]
    · rw [searchModel, searchWith, if_neg (by simpa using hne),
        if_neg (by simp [hd])]
      exact scanIndex_length_le _ _ _ _ _ (by simp)

/-- Witness for C10 at concrete inputs: query `"1"` with limit 0 returns the
one identifier 1; the non-numeric query `"b"` respects limit 1. -/
theorem c10_numeric_limit_bypass_witness :
    searchModel demoTokens ['1'] 0 = [{ id := 1, text := ['b'] }]
    ∧ (searchModel demoTokens ['b'] 1).length ≤ 1 :=
  ⟨by
    have h := (c10_numeric_limit_bypass demoTokens ['1'] 0).2.1
      (by decide) (by decide)
    simpa using h,
   (c10_numeric_limit_bypass demoTokens ['b'] 1).2.2 (by decide)⟩

/-- Claim C6 counterexample: on the table `["cat", "Cats", "cat"]` the query
`"cat"` matches every entry, but the matching identifiers are appended as
`[0, 2, 1]` — the two tokens sharing the folded key `"cat"` are grouped
together ahead of identifier 1 — so they are not appended in table order. -/
theorem c6_table_order_counterexample :
    (searchModel catsDupTokens ("cat".toList) 50).map SearchResult.id
      = [0, 2, 1]
    ∧ ¬ List.Chain' (· ≤ ·)
        ((searchModel catsDupTokens ("cat".toList) 50).map SearchResult.id) := by
  have h1 : (searchModel catsDupTokens ("cat".toList) 50).map SearchResult.id
      = [0, 2, 1] := by decide
  refine ⟨h1, ?_⟩
  intro hch
  rw [h1] at hch
  simp [List.chain'_cons] at hch

/-- Claim C6 (amended): an in-range integer-literal query is placed first;
the substring matches are appended in search-index order — folded keys in
order of first table occurrence, identifiers within a key in table order —
which in particular coincides with global table order whenever no two
tokens share a folded form; already-included identifiers are skipped (the
output ids are nodup); and on the spec's scenario table the query `"cat"`
returns all three tokens in table order.  The general conjuncts hold for
every case-folding function `fold` — in particular for the external
Unicode `toLowerCase` the program uses — while the all-ASCII scenario is
evaluated at the ASCII instance, where that instance is exact. -/
theorem c6_search_order (fold : Str → Str) (toks : List Str) (q : Str)
    (lim : Nat) :
    searchModel scenarioTokens ("cat".toList) 50
      = [{ id := 0, text := ("cat".toList) },
         { id := 1, text := ("Cats".toList) },
         { id := 2, text := ("concatenate".toList) }]
    ∧ (isDigitQuery q = true → natOfDigits q < toks.length →
        (searchWith fold toks q lim).head?
          = some { id := natOfDigits q, text := toks.getD (natOfDigits q) [] })
    ∧ ((toks.map fold).Nodup → isDigitQuery q = false →
        List.Chain' (· < ·)
          ((searchWith fold toks q lim).map SearchResult.id))
    ∧ ((searchWith fold toks q lim).map SearchResult.id).Nodup := by
  refine ⟨by decide, ?_, ?_, ?_⟩
  · intro hd hr
    have hne : q.isEmpty = false := by
      cases q with
      | nil => simp [isDigitQuery] at hd
      | cons c cs => rfl
    rw [searchWith, if_neg (by simp [hne]), if_pos ⟨hd, hr⟩,
      scanIndex_head _ _ _ _ _ (by simp)]
    rfl
  · intro hnd hd
    by_cases hne : q.isEmpty = true
    · simp [searchWith, hne]
    · rw [searchWith, if_neg (by simpa using hne), if_neg (by simp [hd]),
        buildIndexWith_of_nodup fold toks hnd]
      exact scan_singIdx_chain fold lim toks (fold q) toks 0 [] (by simp)
        (by simp)
  · by_cases hne : q.isEmpty = true
    · simp [searchWith, hne]
    · rw [searchWith, if_neg (by simpa using hne)]
      apply scanIndex_nodup
      split
      · simp
      · simp

/-- Witness for C6's amended theorem at concrete inputs (the folding
instantiated with the ASCII fold, exact on the all-ASCII demo table). -/
theorem c6_search_order_witness :
    (searchWith foldCase demoTokens ['1'] 50).head?
      = some { id := 1, text := ['b'] }
    ∧ List.Chain' (· < ·)
        ((searchWith foldCase demoTokens ['b'] 50).map SearchResult.id) :=
  ⟨by
    have h := (c6_search_order foldCase demoTokens ['1'] 50).2.1
      (by decide) (by decide)
    simpa using h,
   (c6_search_order foldCase demoTokens ['b'] 50).2.2.1
     (by decide) (by decide)⟩

theorem phase2Effect_fields (s : Session) :
    (phase2Effect s).1.generation = s.generation
    ∧ (phase2Effect s).1.phase2Run = s.phase2Run + 1
    ∧ (phase2Effect s).1.tokenStrings = s.tokenStrings
    ∧ (phase2Effect s).1.manifest = s.manifest
    ∧ (phase2Effect s).1.searchIndex = s.searchIndex
    ∧ (phase2Effect s).1.errorMsg = s.errorMsg
    ∧ (phase2Effect s).1.shardCache = s.shardCache := by
  unfold phase2Effect
  dsimp only
  repeat' split
  all_goals exact ⟨rfl, rfl, rfl, rfl, rfl, rfl, rfl⟩

theorem applyTableCompletion_counters (s : Session) (tag : Nat)
    (res : Except Err (Manifest × List Str)) :
    (applyTableCompletion s tag res).generation = s.generation
    ∧ (applyTableCompletion s tag res).phase2Run = s.phase2Run := by
  unfold applyTableCompletion
  repeat' split
  all_goals exact ⟨rfl, rfl⟩

theorem applyShardCompletion_fields (s : Session) (runId idx : Nat)
    (res : Except Err KnnShard) :
    (applyShardCompletion s runId idx res).generation = s.generation
    ∧ (applyShardCompletion s runId idx res).phase2Run = s.phase2Run
    ∧ (applyShardCompletion s runId idx res).tokenStrings = s.tokenStrings
    ∧ (applyShardCompletion s runId idx res).searchIndex = s.searchIndex
    ∧ (applyShardCompletion s runId idx res).manifest = s.manifest := by
  unfold applyShardCompletion
  repeat' split
  all_goals exact ⟨rfl, rfl, rfl, rfl, rfl⟩

theorem step_mono (s : Session) (e : Ev) :
    s.generation ≤ (step s e).1.generation
    ∧ s.phase2Run ≤ (step s e).1.phase2Run := by
  cases e with
  | selector => exact ⟨Nat.le_succ _, Nat.le_succ _⟩
  | select tok =>
    simp only [step]
    split
    · exact ⟨Nat.le_refl _, Nat.le_refl _⟩
    · constructor
      · rw [(phase2Effect_fields _).1]
      · rw [(phase2Effect_fields _).2.1]
        exact Nat.le_succ _
  | tableDone tag res =>
    simp only [step]
    have hc := applyTableCompletion_counters s tag res
    split
    · cases res with
      | ok v =>
        constructor
        · rw [(phase2Effect_fields _).1, hc.1]
        · rw [(phase2Effect_fields _).2.1, hc.2]
          exact Nat.le_succ _
      | error ex =>
        constructor
        · rw [hc.1]
        · rw [hc.2]
    · constructor
      · rw [hc.1]
      · rw [hc.2]
  | shardDone runId idx res =>
    have hc := applyShardCompletion_fields s runId idx res
    constructor
    · rw [show (step s (Ev.shardDone runId idx res)).1
          = applyShardCompletion s runId idx res from rfl, hc.1]
    · rw [show (step s (Ev.shardDone runId idx res)).1
          = applyShardCompletion s runId idx res from rfl, hc.2.1]

theorem runTrace_mono (s : Session) (evs : List Ev) :
    s.generation ≤ (runTrace s evs).1.generation
    ∧ s.phase2Run ≤ (runTrace s evs).1.phase2Run := by
  induction evs generalizing s with
  | nil => exact ⟨Nat.le_refl _, Nat.le_refl _⟩
  | cons e rest ih =>
    have h1 := step_mono s e
    have h2 := ih (step s e).1
    exact ⟨Nat.le_trans h1.1 h2.1, Nat.le_trans h1.2 h2.2⟩

/-- Claim C1: a selector change advances both run counters past every
counter value captured by work outstanding under the previous selector, so
no matter what happens afterwards in the new session, the completion of
that stale work — table load or shard fetch, success or failure — is a
no-op: no cache write, no publication, no error, no state change at all. -/
theorem c1_generation_isolation (s : Session) (evs : List Ev)
    (tag runId idx : Nat) (tres : Except Err (Manifest × List Str))
    (sres : Except Err KnnShard)
    (htag : tag ≤ s.generation) (hrun : runId ≤ s.phase2Run) :
    applyTableCompletion (runTrace (startSelector s) evs).1 tag tres
      = (runTrace (startSelector s) evs).1
    ∧ applyShardCompletion (runTrace (startSelector s) evs).1 runId idx sres
      = (runTrace (startSelector s) evs).1 := by
  have hm := runTrace_mono (startSelector s) evs
  have hg : tag ≠ (runTrace (startSelector s) evs).1.generation := by
    have h1 : s.generation + 1 ≤ (runTrace (startSelector s) evs).1.generation :=
      hm.1
    omega
  have hr : runId ≠ (runTrace (startSelector s) evs).1.phase2Run := by
    have h1 : s.phase2Run + 1 ≤ (runTrace (startSelector s) evs).1.phase2Run :=
      hm.2
    omega
  constructor
  · simp [applyTableCompletion, hg]
  · simp [applyShardCompletion, hr]

/-- Witness for C1: the stale shard completion (run id 3) of the fetch left
outstanding by `loadedSession` does nothing after a selector change. -/
theorem c1_generation_isolation_witness :
    applyShardCompletion (runTrace (startSelector loadedSession) []).1 3 0
        (Except.ok demoShard)
      = (runTrace (startSelector loadedSession) []).1 :=
  (c1_generation_isolation loadedSession [] 1 3 0
    (Except.error Err.decodeFailure) (Except.ok demoShard)
    (by decide) (by decide)).2

/-- Claim C2 counterexample: in `c2Trace` the table is loaded once
(generation 1 throughout) and tokens 0 and 1 — both in shard 0, which is
never cached in between — are selected while the first fetch is still
outstanding; the trace issues two fetches for shard index 0 in the same
generation, so concurrent demands are not coalesced into one request. -/
theorem c2_coalescing_counterexample :
    (runTrace initSession c2Trace).2 = [0, 0]
    ∧ (runTrace initSession c2Trace).1.generation = 1 := by
  constructor
  · decide
  · decide

/-- Claim C2 (amended): a Phase-2 demand issues no fetch when the shard
containing the selected token is already cached, and any single demand
issues at most the one fetch for that shard; but demands are not coalesced —
each effect run finding the shard missing issues its own fetch, so several
fetches for one shard index can be outstanding within one generation. -/
theorem c2_no_fetch_when_cached (s : Session) (tok : Int) (m : Manifest)
    (hm : s.manifest = some m) :
    (mapHas s.shardCache (tok.toNat / m.shardSize) = true →
      (step s (Ev.select tok)).2 = [])
    ∧ ((step s (Ev.select tok)).2 = []
      ∨ ((step s (Ev.select tok)).2 = [tok.toNat / m.shardSize]
        ∧ mapHas s.shardCache (tok.toNat / m.shardSize) = false)) := by
  obtain ⟨g, p2, ld, err, tokS, mf, nl, sv, si, sc, selT⟩ := s
  simp only at hm
  subst hm
  simp only [step]
  split
  · exact ⟨fun _ => rfl, Or.inl rfl⟩
  · cases tokS with
    | none => exact ⟨fun _ => rfl, Or.inl rfl⟩
    | some ts =>
      simp only [phase2Effect]
      split
      · exact ⟨fun _ => rfl, Or.inl rfl⟩
      · split
        · exact ⟨fun _ => rfl, Or.inl rfl⟩
        · rename_i hrange hcached
          refine ⟨fun h => absurd h hcached, Or.inr ⟨rfl, ?_⟩⟩
          simpa using hcached

/-- Witness for C2's amended theorem: selecting token 1 on a session whose
shard 0 is cached issues no fetch. -/
theorem c2_no_fetch_when_cached_witness :
    (step cachedSession (Ev.select 1)).2 = [] :=
  (c2_no_fetch_when_cached cachedSession 1 demoManifest (by decide)).1
    (by decide)

/-- Claim C4 counterexample: selecting the out-of-range identifier 10 on a
loaded 4-token table issues no fetch — but it also surfaces no error: the
Phase-2 effect returns silently, no `OutOfRangeError` reaches the caller. -/
theorem c4_out_of_range_counterexample :
    (runTrace initSession c4Trace).2 = []
    ∧ (runTrace initSession c4Trace).1.errorMsg = none
    ∧ (runTrace initSession c4Trace).1.manifest = some demoManifest := by
  refine ⟨by decide, by decide, by decide⟩

/-- Claim C4 (amended): for every selected identifier that is negative or
at least vocabularySize, the Phase-2 effect issues no network fetch and
surfaces no error — the selection is silently ignored (error state and
cache are untouched). -/
theorem c4_out_of_range_silent (s : Session) (tok : Int) (m : Manifest)
    (hm : s.manifest = some m)
    (hr : tok < 0 ∨ (m.vocabSize : Int) ≤ tok) :
    (step s (Ev.select tok)).2 = []
    ∧ (step s (Ev.select tok)).1.errorMsg = s.errorMsg
    ∧ (step s (Ev.select tok)).1.shardCache = s.shardCache := by
  obtain ⟨g, p2, ld, err, tokS, mf, nl, sv, si, sc, selT⟩ := s
  simp only at hm
  subst hm
  simp only [step]
  split
  · exact ⟨rfl, rfl, rfl⟩
  · cases tokS with
    | none => exact ⟨rfl, rfl, rfl⟩
    | some ts =>
      simp only [phase2Effect]
      rw [if_pos hr]
      exact ⟨rfl, rfl, rfl⟩

/-- Witness for C4's amended theorem: selecting token 10 on the loaded
4-token session fetches nothing and leaves the error state untouched. -/
theorem c4_out_of_range_silent_witness :
    (step loadedSession (Ev.select 10)).2 = []
    ∧ (step loadedSession (Ev.select 10)).1.errorMsg = loadedSession.errorMsg
    ∧ (step loadedSession (Ev.select 10)).1.shardCache
        = loadedSession.shardCache :=
  c4_out_of_range_silent loadedSession 10 demoManifest (by decide) (by decide)

theorem phase2Effect_fetch_req (s : Session) (h : (phase2Effect s).2 ≠ []) :
    s.manifest.isSome = true ∧ s.tokenStrings.isSome = true := by
  obtain ⟨g, p2, ld, err, tokS, mf, nl, sv, si, sc, selT⟩ := s
  cases mf with
  | none => cases tokS <;> cases selT <;> exact absurd rfl h
  | some m =>
    cases tokS with
    | none => cases selT <;> exact absurd rfl h
    | some ts => exact ⟨rfl, rfl⟩

theorem applyTableCompletion_inv (s : Session) (tag : Nat)
    (res : Except Err (Manifest × List Str))
    (h : ∀ t, s.tokenStrings = some t → s.searchIndex = buildIndex t) :
    ∀ t, (applyTableCompletion s tag res).tokenStrings = some t →
      (applyTableCompletion s tag res).searchIndex = buildIndex t := by
  unfold applyTableCompletion
  split
  · exact h
  · cases res with
    | ok v =>
      obtain ⟨m, toks⟩ := v
      intro t ht
      have ht' : some toks = some t := ht
      obtain rfl : toks = t := by injection ht'
      rfl
    | error e =>
      intro t ht
      exact h t ht

theorem step_inv (s : Session) (e : Ev)
    (h : ∀ t, s.tokenStrings = some t → s.searchIndex = buildIndex t) :
    ∀ t, (step s e).1.tokenStrings = some t →
      (step s e).1.searchIndex = buildIndex t := by
  cases e with
  | selector =>
    intro t ht
    simp [step, startSelector] at ht
  | select tok =>
    simp only [step]
    split
    · exact h
    · intro t ht
      rw [(phase2Effect_fields _).2.2.1] at ht
      rw [(phase2Effect_fields _).2.2.2.2.1]
      exact h t ht
  | tableDone tag res =>
    simp only [step]
    have h' := applyTableCompletion_inv s tag res h
    split
    · cases res with
      | ok v =>
        intro t ht
        rw [(phase2Effect_fields _).2.2.1] at ht
        rw [(phase2Effect_fields _).2.2.2.2.1]
        exact h' t ht
      | error e2 => exact h'
    · exact h'
  | shardDone runId idx res =>
    intro t ht
    have hf := applyShardCompletion_fields s runId idx res
    rw [show (step s (Ev.shardDone runId idx res)).1
        = applyShardCompletion s runId idx res from rfl] at ht ⊢
    rw [hf.2.2.1] at ht
    rw [hf.2.2.2.1]
    exact h t ht

theorem runTrace_inv (s : Session) (evs : List Ev)
    (h : ∀ t, s.tokenStrings = some t → s.searchIndex = buildIndex t) :
    ∀ t, (runTrace s evs).1.tokenStrings = some t →
      (runTrace s evs).1.searchIndex = buildIndex t := by
  induction evs generalizing s with
  | nil => exact h
  | cons e rest ih => exact ih (step s e).1 (step_inv s e h)

theorem step_fetch_req (s : Session) (e : Ev) (h : (step s e).2 ≠ []) :
    (step s e).1.manifest.isSome = true
    ∧ (step s e).1.tokenStrings.isSome = true := by
  cases e with
  | selector => exact absurd rfl h
  | select tok =>
    simp only [step] at h ⊢
    by_cases hsel : s.selectedToken = some tok
    · rw [if_pos hsel] at h
      exact absurd rfl h
    · rw [if_neg hsel] at h ⊢
      have hreq := phase2Effect_fetch_req _ h
      rw [(phase2Effect_fields _).2.2.2.1, (phase2Effect_fields _).2.2.1]
      exact hreq
  | tableDone tag res =>
    simp only [step] at h ⊢
    by_cases htag : tag = s.generation
    · rw [if_pos htag] at h ⊢
      cases res with
      | ok v =>
        obtain ⟨m, toks⟩ := v
        rw [(phase2Effect_fields _).2.2.2.1, (phase2Effect_fields _).2.2.1]
        constructor
        · simp [applyTableCompletion, htag]
        · simp [applyTableCompletion, htag]
      | error e2 => exact absurd rfl h
    · rw [if_neg htag] at h
      exact absurd rfl h
  | shardDone runId idx res => exact absurd rfl h

/-- Claim C8: in every state reachable from the initial session, a
published token table is accompanied by the search index built from it (the
index ref is assigned before `setManifest`/`setTokenStrings`), and any step
that starts a shard fetch ends with both manifest and token table present —
no shard fetch is attempted before both have completed loading. -/
theorem c8_atomic_publication (evs : List Ev) (s : Session) (e : Ev) :
    (∀ t, (runTrace initSession evs).1.tokenStrings = some t →
      (runTrace initSession evs).1.searchIndex = buildIndex t)
    ∧ ((step s e).2 ≠ [] →
      (step s e).1.manifest.isSome = true
      ∧ (step s e).1.tokenStrings.isSome = true) := by
  constructor
  · apply runTrace_inv
    intro t ht
    simp [initSession] at ht
  · exact step_fetch_req s e

/-- Witness for C8: after the demo load the published index equals
`buildIndex demoTokens`, and the fetching step from `loadedSession` has
manifest and table present. -/
theorem c8_atomic_publication_witness :
    (runTrace initSession
        [Ev.selector,
         Ev.tableDone 1 (Except.ok (demoManifest, demoTokens))]).1.searchIndex
      = buildIndex demoTokens
    ∧ ((step loadedSession (Ev.select 1)).1.manifest.isSome = true
      ∧ (step loadedSession (Ev.select 1)).1.tokenStrings.isSome = true) :=
  ⟨(c8_atomic_publication
      [Ev.selector, Ev.tableDone 1 (Except.ok (demoManifest, demoTokens))]
      loadedSession (Ev.select 1)).1 demoTokens (by decide),
   (c8_atomic_publication
      [Ev.selector, Ev.tableDone 1 (Except.ok (demoManifest, demoTokens))]
      loadedSession (Ev.select 1)).2 (by decide)⟩

theorem mapGet_mapSet {α : Type} (c : List (Nat × α)) (a : Nat) (v : α)
    (k : Nat) :
    mapGet (mapSet c a v) k = if a = k then some v else mapGet c k := by
  induction c with
  | nil =>
    by_cases h : a = k <;> simp [mapSet, mapGet, h]
  | cons e rest ih =>
    obtain ⟨k', v'⟩ := e
    by_cases h1 : k' = a
    · subst h1
      by_cases h2 : k' = k <;> simp [mapSet, mapGet, h2]
    · by_cases h2 : k' = k
      · subst h2
        have h3 : ¬ a = k' := fun he => h1 he.symm
        simp [mapSet, mapGet, h1, h3]
      · by_cases h3 : a = k
        · subst h3
          simp [mapSet, mapGet, h1, h2, ih]
        · simp [mapSet, mapGet, h1, h2, h3, ih]

theorem mapHas_mapSet_mono {α : Type} (c : List (Nat × α)) (a : Nat) (v : α)
    (k : Nat) (h : mapHas c k = true) : mapHas (mapSet c a v) k = true := by
  unfold mapHas at h ⊢
  rw [mapGet_mapSet]
  split
  · rfl
  · exact h

theorem mapHas_applyFills_mono (c : Cache) (fs : List (Nat × KnnShard))
    (k : Nat) (h : mapHas c k = true) : mapHas (applyFills c fs) k = true := by
  induction fs generalizing c with
  | nil => exact h
  | cons f rest ih => exact ih _ (mapHas_mapSet_mono _ _ _ _ h)

theorem mapGet_applyFills_congr (cA cB : Cache) (fs : List (Nat × KnnShard))
    (k : Nat) (h : mapGet cA k = mapGet cB k) :
    mapGet (applyFills cA fs) k = mapGet (applyFills cB fs) k := by
  induction fs generalizing cA cB with
  | nil => exact h
  | cons f rest ih =>
    apply ih
    rw [mapGet_mapSet, mapGet_mapSet, h]

theorem prefetchRun_cache_mono (q : List Nat)
    (fills : Nat → List (Nat × KnnShard)) (outcome : Nat → Option KnnShard) :
    ∀ (n : Nat) (c : Cache) (k : Nat), mapHas c k = true →
    mapHas (prefetchRun q fills outcome n c).1 k = true := by
  induction q with
  | nil => intro n c k h; exact h
  | cons idx rest ih =>
    intro n c k h
    rw [prefetchRun]
    split
    · exact ih n c k h
    · split
      · exact ih _ _ k (mapHas_mapSet_mono _ _ _ _
          (mapHas_applyFills_mono _ _ _ h))
      · exact ih _ _ k (mapHas_applyFills_mono _ _ _ h)

theorem prefetchRun_covers (q : List Nat)
    (fills : Nat → List (Nat × KnnShard)) (outcome : Nat → Option KnnShard)
    (hall : ∀ n, (outcome n).isSome = true) :
    ∀ (n : Nat) (c : Cache) (k : Nat), k ∈ q →
    mapHas (prefetchRun q fills outcome n c).1 k = true := by
  induction q with
  | nil =>
    intro n c k hk
    simp at hk
  | cons idx rest ih =>
    intro n c k hk
    rw [prefetchRun]
    split
    · rename_i hhas
      rcases List.mem_cons.mp hk with rfl | hk'
      · exact prefetchRun_cache_mono rest fills outcome n c k hhas
      · exact ih n c k hk'
    · obtain ⟨shard, hsh⟩ := Option.isSome_iff_exists.mp (hall n)
      rw [hsh]
      rcases List.mem_cons.mp hk with rfl | hk'
      · apply prefetchRun_cache_mono
        unfold mapHas
        rw [mapGet_mapSet]
        simp
      · exact ih (n + 1) _ k hk'

theorem prefetchRun_sublist (q : List Nat)
    (fills : Nat → List (Nat × KnnShard)) (outcome : Nat → Option KnnShard) :
    ∀ (n : Nat) (c : Cache),
    List.Sublist (prefetchRun q fills outcome n c).2 q := by
  induction q with
  | nil =>
    intro n c
    simp [prefetchRun]
  | cons idx rest ih =>
    intro n c
    rw [prefetchRun]
    split
    · exact List.Sublist.cons _ (ih n c)
    · split
      · exact List.Sublist.cons₂ _ (ih _ _)
      · exact List.Sublist.cons₂ _ (ih _ _)

theorem prefetchRun_log_outcome_free (fills : Nat → List (Nat × KnnShard))
    (outcome outcome' : Nat → Option KnnShard) :
    ∀ (q : List Nat), q.Nodup → ∀ (n : Nat) (cA cB : Cache),
    (∀ k ∈ q, mapGet cA k = mapGet cB k) →
    (prefetchRun q fills outcome n cA).2
      = (prefetchRun q fills outcome' n cB).2 := by
  intro q
  induction q with
  | nil => intro _ n cA cB _; rfl
  | cons idx rest ih =>
    intro hnd n cA cB hagree
    obtain ⟨hidxnotin, hnd'⟩ := List.nodup_cons.mp hnd
    have hidx := hagree idx (List.mem_cons_self _ _)
    have hhas : mapHas cA idx = mapHas cB idx := by
      unfold mapHas
      rw [hidx]
    have hagree' : ∀ k ∈ rest, mapGet cA k = mapGet cB k :=
      fun k hk => hagree k (List.mem_cons_of_mem _ hk)
    have hagree1 : ∀ k ∈ rest,
        mapGet (applyFills cA (fills n)) k
          = mapGet (applyFills cB (fills n)) k :=
      fun k hk => mapGet_applyFills_congr _ _ _ _ (hagree' k hk)
    have hskip : ∀ (c1 : Cache) (sh : KnnShard) (k : Nat), k ∈ rest →
        mapGet (mapSet c1 idx sh) k = mapGet c1 k := by
      intro c1 sh k hk
      rw [mapGet_mapSet, if_neg (fun he => hidxnotin (by rw [he]; exact hk))]
    rw [prefetchRun, prefetchRun]
    by_cases hc : mapHas cA idx = true
    · rw [if_pos hc, if_pos (hhas ▸ hc)]
      exact ih hnd' n cA cB hagree'
    · rw [if_neg hc, if_neg (fun hcB => hc (hhas ▸ hcB))]
      cases ho : outcome n with
      | some sh =>
        cases ho' : outcome' n with
        | some sh' =>
          refine congrArg (fun l => idx :: l) (ih hnd' (n + 1) _ _ ?_)
          intro k hk
          rw [hskip _ _ _ hk, hskip _ _ _ hk]
          exact hagree1 k hk
        | none =>
          refine congrArg (fun l => idx :: l) (ih hnd' (n + 1) _ _ ?_)
          intro k hk
          rw [hskip _ _ _ hk]
          exact hagree1 k hk
      | none =>
        cases ho' : outcome' n with
        | some sh' =>
          refine congrArg (fun l => idx :: l) (ih hnd' (n + 1) _ _ ?_)
          intro k hk
          rw [hskip _ _ _ hk]
          exact hagree1 k hk
        | none =>
          refine congrArg (fun l => idx :: l) (ih hnd' (n + 1) _ _ ?_)
          intro k hk
          exact hagree1 k hk

theorem missingShards_nodup (m : Manifest) (c : Cache) :
    (missingShards m c).Nodup :=
  List.Nodup.filter _ (List.nodup_range _)

/-- Claim C7 counterexample: with one shard missing, the on-demand path
writes shard 0 into the cache during the idle wait between the dequeue
check and the prefetch fetch (`fills 0 = [(0, demoShard)]`), yet the
prefetcher still fetches shard index 0 — the dequeue-time re-check is the
only guard, so a shard filled meanwhile is fetched again. -/
theorem c7_refetch_counterexample :
    (backgroundPrefetch oneShardManifest (fun _ => [(0, demoShard)])
        (fun _ => some demoShard) []).2 = [0]
    ∧ mapHas (applyFills [] [(0, demoShard)]) 0 = true := by
  constructor
  · rfl
  · rfl

/-- Claim C7 (amended): background prefetch fetches only shard indices
missing when it began, each at most once, never fetching a shard already
cached at its dequeue (a shard filled between dequeue and the idle-
scheduled fetch may still be fetched once, its result overwriting the
cache); individual failures are skipped without affecting which shards are
attempted; and when no fetch fails every shard index below `numShards` ends
up cached. -/
theorem c7_prefetch_properties (m : Manifest)
    (fills : Nat → List (Nat × KnnShard))
    (outcome outcome' : Nat → Option KnnShard) (c : Cache) :
    List.Sublist (backgroundPrefetch m fills outcome c).2 (missingShards m c)
    ∧ (backgroundPrefetch m fills outcome c).2.Nodup
    ∧ ((∀ n, (outcome n).isSome = true) →
        ∀ i, i < m.numShards →
          mapHas (backgroundPrefetch m fills outcome c).1 i = true)
    ∧ (backgroundPrefetch m fills outcome c).2
        = (backgroundPrefetch m fills outcome' c).2 := by
  refine ⟨prefetchRun_sublist _ _ _ _ _, ?_, ?_, ?_⟩
  · exact List.Nodup.sublist (prefetchRun_sublist _ _ _ _ _)
      (missingShards_nodup m c)
  · intro hall i hi
    by_cases hc : mapHas c i = true
    · exact prefetchRun_cache_mono _ _ _ _ _ _ hc
    · apply prefetchRun_covers _ _ _ hall
      unfold missingShards
      rw [List.mem_filter]
      refine ⟨List.mem_range.mpr hi, ?_⟩
      simp only [Bool.not_eq_true] at hc
      simp [hc]
  · exact prefetchRun_log_outcome_free fills outcome outcome' _
      (missingShards_nodup m c) 0 c c (fun k _ => rfl)

/-- Witness for C7's amended theorem: a two-shard prefetch with no fills
caches shard 0, and its fetch log does not depend on outcomes. -/
theorem c7_prefetch_properties_witness :
    mapHas (backgroundPrefetch demoManifest (fun _ => [])
        (fun _ => some demoShard) []).1 0 = true
    ∧ (backgroundPrefetch demoManifest (fun _ => [])
        (fun _ => some demoShard) []).2
      = (backgroundPrefetch demoManifest (fun _ => []) (fun _ => none) []).2 :=
  ⟨(c7_prefetch_properties demoManifest (fun _ => []) (fun _ => some demoShard)
      (fun _ => none) []).2.2.1 (fun _ => rfl) 0 (by decide),
   (c7_prefetch_properties demoManifest (fun _ => []) (fun _ => some demoShard)
      (fun _ => none) []).2.2.2⟩

end TokenKnn
